import Mathlib

/-!
# Coogle signature engine: formal model

A shallow embedding of the signature parsing, type normalization,
arena allocation and matching code of the Coogle repository
(src/src/parser.cpp, src/include/coogle/arena.h, src/include/coogle/parser.h),
with theorems settling the specification claims about it.

Strings are modelled as lists of characters; the C++ scanning loops are
modelled as structurally recursive functions (index loops that can jump
forward by more than one character carry an explicit fuel argument,
initialised to the input length, which always suffices).
-/

namespace Coogle

/-! ## Character classes (C locale, ASCII)

std::isspace and std::ispunct as used by parser.cpp. -/

/-- std::isspace in the C locale: space, tab, newline, vertical tab,
form feed, carriage return. -/
def isSpaceC (c : Char) : Bool :=
  c = ' ' || c = '\t' || c = '\n' || c = '\x0b' || c = '\x0c' || c = '\r'

/-- std::ispunct in the C locale (ASCII punctuation ranges). -/
def isPunctC (c : Char) : Bool :=
  (33 ≤ c.toNat && c.toNat ≤ 47) || (58 ≤ c.toNat && c.toNat ≤ 64) ||
  (91 ≤ c.toNat && c.toNat ≤ 96) || (123 ≤ c.toNat && c.toNat ≤ 126)

/-! ## trim (parser.cpp, anonymous namespace)

find_first_not_of / find_last_not_of over the set " \t\n\r". -/

/-- Member of the character set " \t\n\r" used by trim. -/
def isTrimWs (c : Char) : Bool :=
  c = ' ' || c = '\t' || c = '\n' || c = '\r'

/-- trim: drop leading and trailing characters from the set " \t\n\r";
an all-whitespace input becomes empty. -/
def trim (l : List Char) : List Char :=
  ((l.dropWhile isTrimWs).reverse.dropWhile isTrimWs).reverse

/-! ## skipKeyword (parser.cpp lines 35-56) -/

def kwConst : List Char := "const".data
def kwClass : List Char := "class".data
def kwStruct : List Char := "struct".data
def kwUnion : List Char := "union".data

/-- A word boundary character: whitespace or punctuation. -/
def boundaryChar (c : Char) : Bool := isSpaceC c || isPunctC c

/-- IsStart check of skipKeyword: the position is the start of the string
(previous character absent) or the previous character is a boundary. -/
def boundaryBefore : Option Char → Bool
  | none => true
  | some c => boundaryChar c

/-- IsEnd check of skipKeyword: after the keyword comes end-of-string or a
boundary character. -/
def boundaryAfter : List Char → Bool
  | [] => true
  | c :: _ => boundaryChar c

/-- One keyword test of skipKeyword: the keyword is a prefix of the rest of
the input and both word boundaries hold. `prev` is the input character just
before the current position, if any. -/
def kwAt (kw : List Char) (prev : Option Char) (l : List Char) : Bool :=
  kw.isPrefixOf l && boundaryBefore prev && boundaryAfter (l.drop kw.length)

/-- skipKeyword: try the four keywords in order; on success return the last
character of the matched keyword (the new previous-character for boundary
checks) and the input after the keyword. -/
def matchKw (prev : Option Char) (l : List Char) : Option (Char × List Char) :=
  if kwAt kwConst prev l then some ('t', l.drop 5)
  else if kwAt kwClass prev l then some ('s', l.drop 5)
  else if kwAt kwStruct prev l then some ('t', l.drop 6)
  else if kwAt kwUnion prev l then some ('n', l.drop 5)
  else none

/-! ## normalizeType first pass (parser.cpp lines 124-137)

Remove whitespace, skip keywords, copy everything else. The C++ loop
advances its read index past a whole keyword at once; the fuel argument
(initialised to the input length, which bounds the number of loop steps)
makes that recursion structural. -/

def pass1Aux : Nat → Option Char → List Char → List Char
  | 0, _, _ => []
  | _ + 1, _, [] => []
  | fuel + 1, prev, c :: rest =>
    if isSpaceC c then pass1Aux fuel (some c) rest
    else
      match matchKw prev (c :: rest) with
      | some (lastC, rest') => pass1Aux fuel (some lastC) rest'
      | none => c :: pass1Aux fuel (some c) rest

/-- First pass of normalizeType: whitespace removal and keyword stripping. -/
def pass1 (l : List Char) : List Char := pass1Aux l.length none l

/-! ## String searching helpers (std::string_view::find) -/

/-- Scan for the first occurrence of a character, reporting its index. -/
def findCharAux (ch : Char) : Nat → List Char → Option Nat
  | _, [] => none
  | i, c :: rest => if c = ch then some i else findCharAux ch (i + 1) rest

/-- std::string_view::find(ch, start): first index at or after start
holding ch. -/
def findCharFrom (ch : Char) (l : List Char) (start : Nat) : Option Nat :=
  findCharAux ch start (l.drop start)

/-- Scan for the first index at which pat is a prefix of the remaining
input. -/
def findSubstrAux (pat : List Char) : Nat → List Char → Option Nat
  | i, [] => if pat = [] then some i else none
  | i, c :: rest =>
    if pat.isPrefixOf (c :: rest) then some i else findSubstrAux pat (i + 1) rest

/-- std::string_view::find(pat): index of the first occurrence of pat. -/
def findSubstr (pat l : List Char) : Option Nat := findSubstrAux pat 0 l

/-! ## normalizeStdString (parser.cpp lines 59-114) -/

def bsPat : List Char := "std::basic_string".data
def replStr : List Char := "std::string".data

/-- The bracket-matching loop of normalizeStdString: starting at nesting
level lvl and index i, find the index one past the angle bracket that
brings the level to zero; none if the level never returns to zero before
the end of the buffer. -/
def angleStep (lvl : Int) (c : Char) : Int :=
  if c = '<' then lvl + 1 else if c = '>' then lvl - 1 else lvl

def closeAngleAux : Int → Nat → List Char → Option Nat
  | _, _, [] => none
  | lvl, i, c :: rest =>
    if angleStep lvl c = 0 then some (i + 1)
    else closeAngleAux (angleStep lvl c) (i + 1) rest

/-- The searching phase of normalizeStdString: position of the literal
"std::basic_string", position of the following template-open bracket, and
the index one past its depth-matched closing bracket. none whenever the
C++ code takes one of its three early returns (pattern not found, no
bracket, unbalanced brackets). -/
def basicStringMatch (l : List Char) : Option (Nat × Nat) :=
  match findSubstr bsPat l with
  | none => none
  | some pos =>
    match findCharFrom '<' l pos with
    | none => none
    | some st =>
      match closeAngleAux 1 (st + 1) (l.drop (st + 1)) with
      | none => none
      | some endT => some (pos, endT)

/-- normalizeStdString: rewrite the first "std::basic_string<...>"
occurrence to "std::string"; leave the buffer untouched when the pattern,
its bracket, or its balanced closing bracket is missing. The three copy
branches of the C++ all yield this spliced content. -/
def normalizeStdString (l : List Char) : List Char :=
  match basicStringMatch l with
  | none => l
  | some (pos, endT) => l.take pos ++ replStr ++ l.drop endT

/-- normalizeType (parser.cpp lines 118-144): the whitespace/keyword pass
followed by the basic_string canonicalization pass. The arena bookkeeping
of the C++ (allocate twice the input size, finalize to the written prefix)
does not affect the produced text, which is what this function returns. -/
def normalizeType (l : List Char) : List Char := normalizeStdString (pass1 l)

/-! ## parseFunctionSignature (parser.cpp lines 146-241) -/

/-- Input.find of the opening parenthesis. -/
def findOpen (l : List Char) : Option Nat := findCharAux '(' 0 l

/-- The matching-close loop of parseFunctionSignature: from index i with
parenthesis level lvl, report the index of the close parenthesis that
brings the level back to zero; none if the level never returns to zero. -/
def parenStep (lvl : Int) (c : Char) : Int :=
  if c = '(' then lvl + 1 else if c = ')' then lvl - 1 else lvl

def parenCloseAux : Int → Nat → List Char → Option Nat
  | _, _, [] => none
  | lvl, i, c :: rest =>
    if c = ')' ∧ parenStep lvl c = 0 then some i
    else parenCloseAux (parenStep lvl c) (i + 1) rest

/-- Index of the close parenthesis matching the open parenthesis at po,
scanning from po with the level starting at zero. -/
def findClose (l : List Char) (po : Nat) : Option Nat :=
  parenCloseAux 0 po (l.drop po)

/-- The argument-splitting loop: cut the text between the parentheses at
commas that sit at depth zero of the counter over parentheses and angle
brackets. acc accumulates the current token in reverse. -/
def tokStep (lvl : Int) (c : Char) : Int :=
  if c = '(' ∨ c = '<' then lvl + 1
  else if c = ')' ∨ c = '>' then lvl - 1 else lvl

def splitTopAux : Int → List Char → List Char → List (List Char)
  | _, acc, [] => [acc.reverse]
  | lvl, acc, c :: rest =>
    if c = ',' ∧ lvl = 0 then acc.reverse :: splitTopAux 0 [] rest
    else splitTopAux (tokStep lvl c) (c :: acc) rest

/-- Signature (parser.h lines 21-26): the return type and the positional
argument types, each in raw and normalized spelling. The parallel
argument sequences of the C++ struct are parallel lists here. -/
structure Signature where
  RetType : List Char
  RetTypeNorm : List Char
  ArgTypes : List (List Char)
  ArgTypesNorm : List (List Char)
deriving DecidableEq, Repr

/-- parseFunctionSignature: locate the outer parenthesis pair, fail when
the open parenthesis is missing or unmatched, take the trimmed prefix as
the return type, split the text between the parentheses at depth-zero
commas, trim each token and drop the empty ones, normalizing every stored
spelling. The arena interning of the C++ copies text without changing it,
so it is content-transparent here. -/
def parseFunctionSignature (input : List Char) : Option Signature :=
  match findOpen input with
  | none => none
  | some po =>
    match findClose input po with
    | none => none
    | some pc =>
      let retRaw := trim (input.take po)
      let retNorm := normalizeType retRaw
      let argSV := (input.drop (po + 1)).take (pc - (po + 1))
      if trim argSV = [] then some ⟨retRaw, retNorm, [], []⟩
      else
        let toks := (splitTopAux 0 [] argSV).map trim
        let args := toks.filter (fun t => !t.isEmpty)
        some ⟨retRaw, retNorm, args, args.map normalizeType⟩

/-! ## isSignatureMatch (parser.cpp lines 248-271) -/

/-- The argument loop of isSignatureMatch, driven positionally over the
query's raw tokens, the query's normalized types and the candidate's
normalized types: a position passes when the raw query token is the
single character star, or the normalized types agree. The loop runs for
the length of the query's normalized list; once it is exhausted the
result is true. -/
def argsMatch : List (List Char) → List (List Char) → List (List Char) → Bool
  | uraw :: ur, unorm :: un, anorm :: an =>
    if uraw = ['*'] then argsMatch ur un an
    else if unorm = anorm then argsMatch ur un an
    else false
  | _, _, _ => true

/-- isSignatureMatch: normalized return types equal, normalized argument
counts equal, then the positional wildcard-or-equal loop. -/
def isSignatureMatch (u a : Signature) : Bool :=
  if u.RetTypeNorm ≠ a.RetTypeNorm then false
  else if u.ArgTypesNorm.length ≠ a.ArgTypesNorm.length then false
  else argsMatch u.ArgTypes u.ArgTypesNorm a.ArgTypesNorm

/-! ## StringArena (arena.h lines 52-99)

The C++ arena stores its bytes in one std::vector with an initial
reserve of 4096. Growing a std::vector past its capacity allocates a new
block, copies the bytes and frees the old block, so every pointer into
the old block dangles. The model tracks the buffer content, the vector
capacity, and a generation number that is bumped exactly when such a
reallocation happens: a view records the generation of the allocation it
points into, and its address is stable precisely while the arena's
generation still equals the view's. -/

/-- A string_view or writable span handed out by the arena: the
generation of the allocation it points into, its byte offset, and its
length (the terminating NUL byte is excluded, as in the C++). -/
structure ArenaView where
  gen : Nat
  off : Nat
  len : Nat
deriving DecidableEq, Repr

/-- StringArena state: buffer content, vector capacity, allocation
generation. -/
structure StringArena where
  buf : List Char
  cap : Nat
  gen : Nat
deriving DecidableEq, Repr

/-- The StringArena constructor: empty buffer with 4096 bytes reserved. -/
def StringArena.init : StringArena := ⟨[], 4096, 0⟩

/-- Logical size of the arena (StringArena::size). -/
def StringArena.size (a : StringArena) : Nat := a.buf.length

/-- std::vector growth: making room for n bytes within the current
capacity leaves the allocation alone; needing more reallocates (new block,
generation bump) with the usual doubling policy. -/
def vgrow (a : StringArena) (n : Nat) : StringArena :=
  if n ≤ a.cap then a else ⟨a.buf, max (2 * a.cap) n, a.gen + 1⟩

/-- StringArena::intern: append the string and a NUL terminator, growing
the vector if needed, and hand out a view of the copied bytes. -/
def StringArena.intern (a : StringArena) (s : List Char) :
    ArenaView × StringArena :=
  let off := a.buf.length
  let a' := vgrow a (a.buf.length + s.length + 1)
  let a'' : StringArena := ⟨a'.buf ++ s ++ ['\x00'], a'.cap, a'.gen⟩
  (⟨a''.gen, off, s.length⟩, a'')

/-- StringArena::allocate: resize the vector up by n plus one NUL slot
(value-initialised bytes), growing the allocation if needed, and hand out
a writable span over the new region. -/
def StringArena.allocate (a : StringArena) (n : Nat) :
    ArenaView × StringArena :=
  let off := a.buf.length
  let a' := vgrow a (a.buf.length + n + 1)
  let a'' : StringArena := ⟨a'.buf ++ List.replicate (n + 1) '\x00', a'.cap, a'.gen⟩
  (⟨a''.gen, off, n⟩, a'')

/-- StringArena::finalize: resize the vector to the span's offset plus the
actually-used length plus one, write the NUL terminator there, and hand
out a view of the used prefix. Resizing down truncates in place (no
reallocation); resizing up appends value-initialised bytes. -/
def StringArena.finalize (a : StringArena) (v : ArenaView) (actual : Nat) :
    ArenaView × StringArena :=
  let newSize := v.off + actual + 1
  let a' : StringArena :=
    if newSize ≤ a.buf.length then ⟨a.buf.take newSize, a.cap, a.gen⟩
    else
      let g := vgrow a newSize
      ⟨g.buf ++ List.replicate (newSize - g.buf.length) '\x00', g.cap, g.gen⟩
  let a'' : StringArena := ⟨a'.buf.set (v.off + actual) '\x00', a'.cap, a'.gen⟩
  (⟨a''.gen, v.off, actual⟩, a'')

/-- StringArena::clear: drop the content (capacity and allocation kept,
as std::vector::clear keeps the allocation). -/
def StringArena.clear (a : StringArena) : StringArena := ⟨[], a.cap, a.gen⟩

/-- A previously issued view still points into the arena's live
allocation: no reallocation has happened since it was issued. -/
def viewStable (a : StringArena) (v : ArenaView) : Prop := a.gen = v.gen

instance (a : StringArena) (v : ArenaView) : Decidable (viewStable a v) := by
  unfold viewStable; infer_instance

/-! ## Auxiliary predicate for stating when the first pass removes
something -/

/-- Scan every position of a buffer for a whole-word keyword occurrence,
carrying the previous character exactly as the first pass does. -/
def hasKWAux : Nat → Option Char → List Char → Bool
  | 0, _, _ => false
  | _ + 1, _, [] => false
  | fuel + 1, prev, c :: rest =>
    (matchKw prev (c :: rest)).isSome || hasKWAux fuel (some c) rest

/-- Some position of the buffer holds a whole-word occurrence of one of
the four stripped keywords. -/
def hasWholeKw (l : List Char) : Bool := hasKWAux l.length none l

end Coogle

namespace Coogle

-- sanity checks of the embedding against the repository's unit tests
example : normalizeType ("const std::string &".data) = "std::string&".data := by decide
example : normalizeType ("std::basic_string<char>".data) = "std::string".data := by decide
example : normalizeType ("constant".data) = "constant".data := by decide
example : normalizeType ("int * * *".data) = "int***".data := by decide
example : normalizeType ("con st".data) = "const".data := by decide
example : normalizeType ("const".data) = ([] : List Char) := by decide

example :
    parseFunctionSignature ("std::map<int, int>(std::vector<int>)".data) =
      some ⟨"std::map<int, int>".data, "std::map<int,int>".data,
            ["std::vector<int>".data], ["std::vector<int>".data]⟩ := by decide
example : (parseFunctionSignature ("f()".data)).map Signature.ArgTypes = some [] := by decide
example : (parseFunctionSignature ("f(,)".data)).map Signature.ArgTypes = some [] := by decide
example : (parseFunctionSignature ("f(*)".data)).map Signature.ArgTypes = some [['*']] := by
  decide
example : parseFunctionSignature ("int(".data) = none := by decide
example : parseFunctionSignature (")(".data) = none := by decide
example : parseFunctionSignature ("no_parens".data) = none := by decide
example : parseFunctionSignature ("int(char)trailing garbage".data) =
    parseFunctionSignature ("int(char)".data) := by decide

/-! ## Helper lemmas about the first normalization pass -/

/-- Every character emitted by the first pass is a non-whitespace
character of the input. -/
theorem pass1Aux_no_space (fuel : Nat) (prev : Option Char) (l : List Char) :
    (pass1Aux fuel prev l).all (fun c => !isSpaceC c) = true := by
  induction fuel generalizing prev l with
  | zero => simp [pass1Aux]
  | succ n ih =>
    cases l with
    | nil => simp [pass1Aux]
    | cons c rest =>
      rw [pass1Aux]
      cases hs : isSpaceC c with
      | true => simp [ih]
      | false =>
        simp only [Bool.false_eq_true, if_false]
        cases hm : matchKw prev (c :: rest) with
        | some p => simp [ih]
        | none => simp [List.all_cons, hs, ih]

/-- The produced text of normalizeType contains no whitespace
character. -/
theorem normalizeType_no_space (l : List Char) :
    (normalizeType l).all (fun c => !isSpaceC c) = true := by
  have hp : (pass1 l).all (fun c => !isSpaceC c) = true := pass1Aux_no_space _ _ _
  unfold normalizeType normalizeStdString
  cases hb : basicStringMatch (pass1 l) with
  | none => exact hp
  | some p =>
    obtain ⟨pos, endT⟩ := p
    rw [List.all_eq_true] at hp ⊢
    intro x hx
    rcases List.mem_append.mp hx with hx' | hx'
    · rcases List.mem_append.mp hx' with hx'' | hx''
      · exact hp x (List.take_subset _ _ hx'')
      · have hrepl : replStr.all (fun c => !isSpaceC c) = true := by decide
        exact List.all_eq_true.mp hrepl x hx''
    · exact hp x (List.drop_subset _ _ hx')

/-- If the fuel covers the input, the input has no whitespace, and no
position carries a whole-word keyword, the first pass copies the input
unchanged. -/
theorem pass1Aux_id (fuel : Nat) (prev : Option Char) (l : List Char)
    (hf : l.length ≤ fuel)
    (hws : l.all (fun c => !isSpaceC c) = true)
    (hkw : hasKWAux fuel prev l = false) :
    pass1Aux fuel prev l = l := by
  induction fuel generalizing prev l with
  | zero =>
    have : l = [] := List.length_eq_zero.mp (Nat.le_zero.mp hf)
    subst this; rfl
  | succ n ih =>
    cases l with
    | nil => rfl
    | cons c rest =>
      rw [List.all_cons, Bool.and_eq_true] at hws
      have hc : isSpaceC c = false := by
        have := hws.1
        cases h : isSpaceC c
        · rfl
        · rw [h] at this; simp at this
      rw [hasKWAux] at hkw
      have hm : matchKw prev (c :: rest) = none := by
        cases h : matchKw prev (c :: rest)
        · rfl
        · rw [h] at hkw; simp at hkw
      have hk : hasKWAux n (some c) rest = false := by
        cases h : hasKWAux n (some c) rest
        · rfl
        · rw [h] at hkw; simp at hkw
      rw [pass1Aux, hc]
      simp only [Bool.false_eq_true, if_false, hm]
      have : rest.length ≤ n := Nat.le_of_succ_le_succ (by simpa using hf)
      rw [ih (some c) rest this hws.2 hk]

/-- normalizeStdString leaves a buffer untouched when its searching phase
fails, in particular when the pattern does not occur. -/
theorem normalizeStdString_id (l : List Char)
    (h : basicStringMatch l = none) : normalizeStdString l = l := by
  unfold normalizeStdString
  rw [h]

/-- The searching phase fails when the pattern does not occur at all. -/
theorem basicStringMatch_none_of_no_pat (l : List Char)
    (h : findSubstr bsPat l = none) : basicStringMatch l = none := by
  unfold basicStringMatch
  rw [h]

/-! ## Bounds of the scanning helpers -/

/-- The first pass never writes more characters than it reads. -/
theorem matchKw_some_length (prev : Option Char) (l : List Char)
    (p : Char × List Char) (h : matchKw prev l = some p) :
    p.2.length ≤ l.length := by
  unfold matchKw at h
  split at h
  · injection h with h'; subst h'; simpa using Nat.sub_le l.length 5
  split at h
  · injection h with h'; subst h'; simpa using Nat.sub_le l.length 5
  split at h
  · injection h with h'; subst h'; simpa using Nat.sub_le l.length 6
  split at h
  · injection h with h'; subst h'; simpa using Nat.sub_le l.length 5
  exact absurd h (by simp)

theorem pass1Aux_length (fuel : Nat) (prev : Option Char) (l : List Char) :
    (pass1Aux fuel prev l).length ≤ l.length := by
  induction fuel generalizing prev l with
  | zero => simp [pass1Aux]
  | succ n ih =>
    cases l with
    | nil => simp [pass1Aux]
    | cons c rest =>
      rw [pass1Aux]
      cases hs : isSpaceC c with
      | true =>
        rw [if_pos rfl]
        have := ih (some c) rest
        simp only [List.length_cons]
        omega
      | false =>
        simp only [Bool.false_eq_true, if_false]
        cases hm : matchKw prev (c :: rest) with
        | some p =>
          obtain ⟨lc, r'⟩ := p
          have h1 := matchKw_some_length prev (c :: rest) (lc, r') hm
          have h2 := ih (some lc) r'
          exact Nat.le_trans h2 h1
        | none =>
          simp only [List.length_cons]
          have := ih (some c) rest
          omega

/-- A found character lies at or after the start index and within the
scanned region. -/
theorem findCharAux_bounds (ch : Char) (i : Nat) (l : List Char) (j : Nat)
    (h : findCharAux ch i l = some j) : i ≤ j ∧ j < i + l.length := by
  induction l generalizing i with
  | nil => simp [findCharAux] at h
  | cons c rest ih =>
    rw [findCharAux] at h
    split at h
    · injection h with h'
      subst h'
      simp only [List.length_cons]
      omega
    · have := ih (i + 1) h
      simp only [List.length_cons]
      omega

/-- A found substring occurrence starts at or after the start index and
fits inside the scanned region. -/
theorem findSubstrAux_bounds (pat : List Char) (i : Nat) (l : List Char)
    (j : Nat) (h : findSubstrAux pat i l = some j) :
    i ≤ j ∧ j + pat.length ≤ i + l.length := by
  induction l generalizing i with
  | nil =>
    rw [findSubstrAux] at h
    split at h
    · injection h with h'
      subst h'
      simp [*]
    · exact absurd h (by simp)
  | cons c rest ih =>
    rw [findSubstrAux] at h
    split at h
    · injection h with h'
      subst h'
      refine ⟨Nat.le_refl _, ?_⟩
      have hpre : pat.length ≤ (c :: rest).length :=
        (List.isPrefixOf_iff_prefix.mp (by assumption)).length_le
      omega
    · have := ih (i + 1) h
      simp only [List.length_cons]
      omega

/-- The bracket-matching loop reports an index strictly after its start
and within the scanned region. -/
theorem closeAngleAux_bounds (lvl : Int) (i : Nat) (l : List Char) (e : Nat)
    (h : closeAngleAux lvl i l = some e) : i < e ∧ e ≤ i + l.length := by
  induction l generalizing lvl i with
  | nil => simp [closeAngleAux] at h
  | cons c rest ih =>
    rw [closeAngleAux] at h
    split at h
    · injection h with h'
      subst h'
      simp only [List.length_cons]
      omega
    · have := ih (angleStep lvl c) (i + 1) h
      simp only [List.length_cons]
      omega

/-- Bounds delivered by a successful searching phase: the pattern fits
before the closing bracket and the close index stays inside the buffer. -/
theorem basicStringMatch_bounds (l : List Char) (pos endT : Nat)
    (h : basicStringMatch l = some (pos, endT)) :
    pos + 17 ≤ l.length ∧ pos < endT ∧ endT ≤ l.length := by
  unfold basicStringMatch at h
  cases hf : findSubstr bsPat l with
  | none => simp only [hf] at h; exact absurd h (by simp)
  | some p =>
    simp only [hf] at h
    cases hc : findCharFrom '<' l p with
    | none => simp only [hc] at h; exact absurd h (by simp)
    | some st =>
      simp only [hc] at h
      cases ha : closeAngleAux 1 (st + 1) (l.drop (st + 1)) with
      | none => simp only [ha] at h; exact absurd h (by simp)
      | some e =>
        simp only [ha, Option.some.injEq, Prod.mk.injEq] at h
        obtain ⟨rfl, rfl⟩ := h
        have h1 := findSubstrAux_bounds bsPat 0 l p hf
        have h2 := findCharAux_bounds '<' p (l.drop p) st hc
        have h3 := closeAngleAux_bounds 1 (st + 1) (l.drop (st + 1)) e ha
        have hbs : bsPat.length = 17 := by decide
        simp only [List.length_drop] at h2 h3
        omega

/-- The produced text of normalizeType fits in the arena buffer that the
C++ allocates for it (twice the input size); in fact it is never longer
than the input. -/
theorem normalizeType_length (s : List Char) :
    (normalizeType s).length ≤ 2 * s.length := by
  have hp : (pass1 s).length ≤ s.length := pass1Aux_length _ _ _
  unfold normalizeType normalizeStdString
  cases hb : basicStringMatch (pass1 s) with
  | none =>
    show (pass1 s).length ≤ 2 * s.length
    omega
  | some p =>
    obtain ⟨pos, endT⟩ := p
    have hbnd := basicStringMatch_bounds _ _ _ hb
    show ((pass1 s).take pos ++ replStr ++ (pass1 s).drop endT).length ≤ 2 * s.length
    simp only [List.length_append, List.length_take, List.length_drop]
    have hr : replStr.length = 11 := by decide
    omega

/-! ## Claim theorems -/

/-- C3 counterexample: normalizeType is not idempotent as claimed for
every input string. Removing the whitespace of the input made of the two
fragments con and st yields the keyword itself, which a second
normalization then strips to the empty string. -/
theorem normalize_not_idempotent :
    normalizeType ("con st".data) = "const".data ∧
    normalizeType (normalizeType ("con st".data)) = [] ∧
    normalizeType (normalizeType ("con st".data)) ≠
      normalizeType ("con st".data) := by decide

/-- C3 amended: normalizeType is idempotent at every input whose
normalized output carries no whole-word occurrence of the stripped
keywords and no remaining occurrence of the basic_string pattern (the
output never contains whitespace, so only those two ways of creating new
work remain). -/
theorem normalize_idempotent_amended (s : List Char)
    (hkw : hasWholeKw (normalizeType s) = false)
    (hbs : findSubstr bsPat (normalizeType s) = none) :
    normalizeType (normalizeType s) = normalizeType s := by
  have hws := normalizeType_no_space s
  have hp1 : pass1 (normalizeType s) = normalizeType s :=
    pass1Aux_id _ _ _ (Nat.le_refl _) hws hkw
  show normalizeStdString (pass1 (normalizeType s)) = normalizeType s
  rw [hp1, normalizeStdString_id _ (basicStringMatch_none_of_no_pat _ hbs)]

/-- C3 amended, witness: idempotence applies at a concrete input whose
normalization is keyword-free and pattern-free. -/
theorem normalize_idempotent_amended_witness :
    normalizeType (normalizeType ("int * x".data)) =
      normalizeType ("int * x".data) :=
  normalize_idempotent_amended ("int * x".data) (by decide) (by decide)

/-- C4 counterexample: normalizeType does not rewrite every occurrence of
a basic_string instantiation; with two occurrences only the first is
rewritten and the second survives. -/
theorem normalize_only_first_basic_string :
    normalizeType ("std::basic_string<char>std::basic_string<char>".data) =
      "std::stringstd::basic_string<char>".data ∧
    normalizeType ("std::basic_string<char>std::basic_string<char>".data) ≠
      "std::stringstd::string".data := by decide

/-- C4 amended: normalizeType rewrites the first occurrence of the
literal std::basic_string followed by a template argument list, locating
the true closing bracket by matching nested angle-bracket depth, to
std::string; later occurrences stay. The two canonicalization examples of
the specification hold. -/
theorem normalize_basic_string_amended :
    normalizeType ("std::basic_string<char>".data) = "std::string".data ∧
    normalizeType
        (("std::basic_string<char, std::char_traits<char>, " ++
          "std::allocator<char>>").data) = "std::string".data ∧
    normalizeType ("std::basic_string<char>std::basic_string<char>".data) =
      "std::stringstd::basic_string<char>".data := by decide

/-- C5: the tokenizer splits the text between the matched parentheses at
depth-zero commas only (the map example yields one argument), trims each
token, produces zero arguments for empty parentheses, silently drops the
empty tokens of an input with a lone comma, and preserves the literal
star token verbatim. -/
theorem parse_tokenization :
    parseFunctionSignature ("std::map<int, int>(std::vector<int>)".data) =
      some ⟨"std::map<int, int>".data, "std::map<int,int>".data,
            ["std::vector<int>".data], ["std::vector<int>".data]⟩ ∧
    (parseFunctionSignature ("f()".data)).map Signature.ArgTypes =
      some [] ∧
    (parseFunctionSignature ("f(,)".data)).map Signature.ArgTypes =
      some [] ∧
    (parseFunctionSignature ("f(*)".data)).map Signature.ArgTypes =
      some [['*']] ∧
    (parseFunctionSignature ("f( int , char )".data)).map Signature.ArgTypes =
      some ["int".data, "char".data] := by decide

/-- C7: normalizeType removes every whitespace character (the produced
text is whitespace-free for every input), strips the keyword tokens only
at whole-word boundaries, and preserves pointer characters: the five
boundary examples of the specification evaluate as claimed. -/
theorem normalize_whitespace_and_keywords :
    (∀ s : List Char, (normalizeType s).all (fun c => !isSpaceC c) = true) ∧
    normalizeType ("constant".data) = "constant".data ∧
    normalizeType ("myconst".data) = "myconst".data ∧
    normalizeType ("const".data) = [] ∧
    normalizeType ("const const".data) = [] ∧
    normalizeType ("int * * *".data) = "int***".data :=
  ⟨normalizeType_no_space, by decide, by decide, by decide, by decide,
   by decide⟩

/-- C8: normalization is total and stays in bounds: the produced text
always fits the buffer of twice the input size that the C++ allocates,
and when the basic_string searching phase fails (pattern absent, no
bracket, or unbalanced brackets) the canonicalization pass returns the
buffer untouched instead of failing. -/
theorem normalize_total_and_bounded :
    (∀ s : List Char, (normalizeType s).length ≤ 2 * s.length) ∧
    (∀ t : List Char, basicStringMatch t = none → normalizeStdString t = t) :=
  ⟨normalizeType_length, normalizeStdString_id⟩

/-- C8 witness: the bound and the untouched-buffer branch at a concrete
unbalanced input. -/
theorem normalize_total_and_bounded_witness :
    (normalizeType ("std::basic_string<char".data)).length ≤
      2 * ("std::basic_string<char".data).length ∧
    normalizeStdString ("std::basic_string<char".data) =
      "std::basic_string<char".data :=
  ⟨normalize_total_and_bounded.1 _,
   normalize_total_and_bounded.2 _ (by decide)⟩

/-! ## Matcher: positional characterization -/

theorem forall_lt_succ_shift (n : Nat) (P : Nat → Prop) :
    (∀ i, i < n + 1 → P i) ↔ P 0 ∧ ∀ i, i < n → P (i + 1) := by
  constructor
  · intro h
    exact ⟨h 0 (Nat.succ_pos n), fun i hi => h (i + 1) (Nat.succ_lt_succ hi)⟩
  · intro h i hi
    cases i with
    | zero => exact h.1
    | succ j => exact h.2 j (Nat.lt_of_succ_lt_succ hi)

/-- The argument loop succeeds exactly when every position up to the
query's normalized argument count carries the star token in the query's
raw list or equal normalized types. -/
theorem argsMatch_iff (ur un an : List (List Char))
    (h1 : ur.length = un.length) (h2 : un.length = an.length) :
    argsMatch ur un an = true ↔
      ∀ i, i < un.length →
        ur.getD i [] = ['*'] ∨ un.getD i [] = an.getD i [] := by
  induction un generalizing ur an with
  | nil => simp [argsMatch]
  | cons x un' ih =>
    cases ur with
    | nil => simp at h1
    | cons u0 ur' =>
      cases an with
      | nil => simp at h2
      | cons a0 an' =>
        have hlen1 : ur'.length = un'.length := by simpa using h1
        have hlen2 : un'.length = an'.length := by simpa using h2
        rw [List.length_cons, forall_lt_succ_shift]
        simp only [List.getD_cons_zero, List.getD_cons_succ]
        rw [← ih ur' an' hlen1 hlen2]
        by_cases hu : u0 = ['*']
        · simp [argsMatch, hu]
        · by_cases hx : x = a0
          · simp [argsMatch, hu, hx]
          · simp [argsMatch, hu, hx]

/-- C1: for signatures with the parsed-signature length invariant on the
query, isSignatureMatch is true exactly when the normalized return types
agree, the normalized argument counts agree, and every position carries
the raw star token in the query or equal normalized argument types —
so a wildcard never relaxes the count requirement and positions are
compared in order, never permuted. -/
theorem match_iff_wildcard_or_equal (u a : Signature)
    (hu : u.ArgTypes.length = u.ArgTypesNorm.length) :
    isSignatureMatch u a = true ↔
      (u.RetTypeNorm = a.RetTypeNorm ∧
       u.ArgTypesNorm.length = a.ArgTypesNorm.length ∧
       ∀ i, i < u.ArgTypesNorm.length →
         u.ArgTypes.getD i [] = ['*'] ∨
         u.ArgTypesNorm.getD i [] = a.ArgTypesNorm.getD i []) := by
  unfold isSignatureMatch
  by_cases h1 : u.RetTypeNorm = a.RetTypeNorm
  · by_cases h2 : u.ArgTypesNorm.length = a.ArgTypesNorm.length
    · simp only [h1, h2]
      simp only [ne_eq, not_true, if_false]
      rw [argsMatch_iff _ _ _ hu h2]
      simp [h1, h2]
    · simp [h1, h2]
  · simp [h1]

/-- C1 witness: the wildcard query of the specification example matches
the candidate with one pointer argument. -/
theorem match_iff_wildcard_or_equal_witness :
    isSignatureMatch
        ⟨"void".data, "void".data, [['*']], [['*']]⟩
        ⟨"void".data, "void".data, ["int*".data], ["int*".data]⟩ = true :=
  (match_iff_wildcard_or_equal
      ⟨"void".data, "void".data, [['*']], [['*']]⟩
      ⟨"void".data, "void".data, ["int*".data], ["int*".data]⟩
      (by decide)).mpr (by decide)

/-! ## Tokenizer failure characterization -/

/-- The character search fails exactly when the character is absent. -/
theorem findCharAux_none_iff (ch : Char) (i : Nat) (l : List Char) :
    findCharAux ch i l = none ↔ ch ∉ l := by
  induction l generalizing i with
  | nil => simp [findCharAux]
  | cons c rest ih =>
    rw [findCharAux]
    by_cases hc : c = ch
    · simp [hc]
    · simp only [hc, if_false, List.mem_cons]
      rw [ih (i + 1)]
      constructor
      · intro h hm
        rcases hm with hm | hm
        · exact hc hm.symm
        · exact h hm
      · intro h hm
        exact h (Or.inr hm)

/-- When no open parenthesis is found the parse fails. -/
theorem parse_open_none (s : List Char) (h : findOpen s = none) :
    parseFunctionSignature s = none := by
  unfold parseFunctionSignature
  simp only [h]

/-- When the depth counter never returns to zero the parse fails. -/
theorem parse_close_none (s : List Char) (po : Nat)
    (ho : findOpen s = some po) (hc : findClose s po = none) :
    parseFunctionSignature s = none := by
  unfold parseFunctionSignature
  simp only [ho, hc]

/-- When the outer parenthesis pair is found the parse produces a
Signature. -/
theorem parse_ne_none (s : List Char) (po pc : Nat)
    (ho : findOpen s = some po) (hc : findClose s po = some pc) :
    parseFunctionSignature s ≠ none := by
  unfold parseFunctionSignature
  simp only [ho, hc]
  split <;> simp

/-- C6: parseFunctionSignature fails exactly when the input has no open
parenthesis or the depth counter scanning from the first open parenthesis
never returns to zero, and the four malformed examples of the
specification all fail; on failure no Signature is produced (the result
is none). -/
theorem parse_fails_iff :
    (∀ s : List Char, parseFunctionSignature s = none ↔
      ('(' ∉ s ∨ ∃ po, findOpen s = some po ∧ findClose s po = none)) ∧
    parseFunctionSignature ("int(".data) = none ∧
    parseFunctionSignature ("int)".data) = none ∧
    parseFunctionSignature (")(".data) = none ∧
    parseFunctionSignature ("no_parens".data) = none := by
  refine ⟨?_, by decide, by decide, by decide, by decide⟩
  intro s
  constructor
  · intro h
    cases ho : findOpen s with
    | none => exact Or.inl ((findCharAux_none_iff '(' 0 s).mp ho)
    | some po =>
      cases hc : findClose s po with
      | none => exact Or.inr ⟨po, rfl, hc⟩
      | some pc => exact absurd h (parse_ne_none s po pc ho hc)
  · intro h
    rcases h with h | ⟨po, hpo, hc⟩
    · exact parse_open_none s ((findCharAux_none_iff '(' 0 s).mpr h)
    · exact parse_close_none s po hpo hc

/-! ## Arena claims -/

/-- C2: the stability promise of the arena's documentation is violated by
the code. On a fresh arena (4096 bytes reserved) the view issued for a
one-byte intern is initially backed by the live allocation, but a second
intern of 4096 bytes pushes the vector past its capacity: the vector
reallocates, the buffer moves, and the earlier view no longer points into
the live allocation — its address and content are not stable for the
arena's lifetime. -/
theorem intern_gen_overflow (a : StringArena) (s : List Char)
    (h : a.cap < a.buf.length + s.length + 1) :
    ((a.intern s).2).gen = a.gen + 1 := by
  unfold StringArena.intern
  show (vgrow a (a.buf.length + s.length + 1)).gen = a.gen + 1
  unfold vgrow
  rw [if_neg (by omega)]

theorem arena_view_invalidated_by_growth :
    viewStable (StringArena.init.intern ['a']).2
      (StringArena.init.intern ['a']).1 ∧
    ¬ viewStable
      ((StringArena.init.intern ['a']).2.intern (List.replicate 4096 'b')).2
      (StringArena.init.intern ['a']).1 := by
  constructor
  · decide
  · intro h
    have h1 : (StringArena.init.intern ['a']).2.cap = 4096 := by decide
    have h2 : (StringArena.init.intern ['a']).2.buf.length = 2 := by decide
    have h3 : (StringArena.init.intern ['a']).2.gen = 0 := by decide
    have hv : (StringArena.init.intern ['a']).1.gen = 0 := by decide
    have hgen :=
      intern_gen_overflow (StringArena.init.intern ['a']).2
        (List.replicate 4096 'b')
        (by rw [h1, h2, List.length_replicate]; omega)
    rw [h3] at hgen
    unfold viewStable at h
    rw [hgen, hv] at h
    exact Nat.one_ne_zero h

/-- vector growth never changes the stored content. -/
theorem vgrow_buf (a : StringArena) (n : Nat) : (vgrow a n).buf = a.buf := by
  unfold vgrow
  split <;> rfl

/-- finalize with a region ending inside the buffer resizes the buffer
down to the region's offset plus the used length plus the NUL slot. -/
theorem finalize_size (a : StringArena) (v : ArenaView) (actual : Nat)
    (h : v.off + actual + 1 ≤ a.buf.length) :
    ((a.finalize v actual).2).size = v.off + actual + 1 := by
  unfold StringArena.finalize
  simp only [StringArena.size]
  rw [if_pos h]
  simp only [List.length_set, List.length_take]
  omega

/-- C9 counterexample: finalize does not strictly increase the arena's
logical size, and the excess reserved capacity is reclaimed rather than
wasted: allocating 10 bytes on a fresh arena brings the size to 11,
finalizing the region to its 3-byte used prefix shrinks the size to 4,
and the next intern is placed at offset 4, inside the previously
reserved region. -/
theorem arena_finalize_shrinks :
    ((StringArena.init.allocate 10).2.finalize
        (StringArena.init.allocate 10).1 3).2.size <
      (StringArena.init.allocate 10).2.size ∧
    (((StringArena.init.allocate 10).2.finalize
        (StringArena.init.allocate 10).1 3).2.intern ['x']).1.off <
      (StringArena.init.allocate 10).2.size := by decide

/-- C9 amended: intern and allocate strictly increase the arena's logical
size; finalize instead resizes the buffer to the finalized region's
offset plus its actually-used length plus one, never past the size left
by the allocation it finalizes, and strictly below it when the used
prefix is shorter than the allocated capacity — the excess is reclaimed
for later allocations, which always start at the current logical size. -/
theorem arena_size_amended :
    (∀ a : StringArena, ∀ s : List Char, ((a.intern s).2).size > a.size) ∧
    (∀ a : StringArena, ∀ n : Nat, ((a.allocate n).2).size > a.size) ∧
    (∀ a : StringArena, ∀ s : List Char, ((a.intern s).1).off = a.size) ∧
    (∀ a : StringArena, ∀ n actual : Nat, actual ≤ n →
      (((a.allocate n).2.finalize (a.allocate n).1 actual).2).size =
        a.size + actual + 1 ∧
      (actual < n →
        (((a.allocate n).2.finalize (a.allocate n).1 actual).2).size <
          ((a.allocate n).2).size)) := by
  refine ⟨?_, ?_, ?_, ?_⟩
  · intro a s
    simp [StringArena.intern, StringArena.size, vgrow_buf]
  · intro a n
    simp [StringArena.allocate, StringArena.size, vgrow_buf]
  · intro a s
    simp [StringArena.intern, StringArena.size]
  · intro a n actual hle
    have hsz : ((a.allocate n).2).size = a.size + n + 1 := by
      simp [StringArena.allocate, StringArena.size, vgrow_buf]
      omega
    have hoff : ((a.allocate n).1).off = a.size := by
      simp [StringArena.allocate, StringArena.size]
    have hb : ((a.allocate n).2).buf.length = a.size + n + 1 := hsz
    have hfin :=
      finalize_size ((a.allocate n).2) ((a.allocate n).1) actual
        (by rw [hoff, hb]; omega)
    rw [hoff] at hfin
    exact ⟨hfin, fun hlt => by rw [hfin, hsz]; omega⟩

/-- C9 amended, witness: the amended finalize behavior at the concrete
trace of the counterexample. -/
theorem arena_size_amended_witness :
    (((StringArena.init.allocate 10).2.finalize
        (StringArena.init.allocate 10).1 3).2).size =
      StringArena.init.size + 3 + 1 ∧
    (((StringArena.init.allocate 10).2.finalize
        (StringArena.init.allocate 10).1 3).2).size <
      ((StringArena.init.allocate 10).2).size :=
  ⟨(arena_size_amended.2.2.2 StringArena.init 10 3 (by decide)).1,
   (arena_size_amended.2.2.2 StringArena.init 10 3 (by decide)).2
     (by decide)⟩

/-! ## Trailing text after the matched close parenthesis -/

/-- A character found within the first n scanned positions is found in
the length-n prefix too. -/
theorem findCharAux_take (ch : Char) (i : Nat) (l : List Char) (j n : Nat)
    (h : findCharAux ch i l = some j) (hj : j < i + n) :
    findCharAux ch i (l.take n) = some j := by
  induction l generalizing i n with
  | nil => simp [findCharAux] at h
  | cons c rest ih =>
    rw [findCharAux] at h
    by_cases hc : c = ch
    · rw [if_pos hc] at h
      injection h with h'
      subst h'
      cases n with
      | zero => omega
      | succ m => rw [List.take_succ_cons, findCharAux, if_pos hc]
    · rw [if_neg hc] at h
      have hge := (findCharAux_bounds ch (i + 1) rest j h).1
      cases n with
      | zero => omega
      | succ m =>
        rw [List.take_succ_cons, findCharAux, if_neg hc]
        exact ih (i + 1) m h (by omega)

/-- The close-scanning loop never reports an index before its start. -/
theorem parenCloseAux_ge (lvl : Int) (i : Nat) (l : List Char) (e : Nat)
    (h : parenCloseAux lvl i l = some e) : i ≤ e := by
  induction l generalizing lvl i with
  | nil => simp [parenCloseAux] at h
  | cons c rest ih =>
    rw [parenCloseAux] at h
    split at h
    · injection h with h'
      omega
    · have := ih (parenStep lvl c) (i + 1) h
      omega

/-- A matched close parenthesis found within the first n scanned
positions is found in the length-n prefix too. -/
theorem parenCloseAux_take (lvl : Int) (i : Nat) (l : List Char) (e n : Nat)
    (h : parenCloseAux lvl i l = some e) (he : e < i + n) :
    parenCloseAux lvl i (l.take n) = some e := by
  induction l generalizing lvl i n with
  | nil => simp [parenCloseAux] at h
  | cons c rest ih =>
    rw [parenCloseAux] at h
    split at h
    next hcond =>
      injection h with h'
      subst h'
      cases n with
      | zero => omega
      | succ m => rw [List.take_succ_cons, parenCloseAux, if_pos hcond]
    next hcond =>
      have hge := parenCloseAux_ge _ _ _ _ h
      cases n with
      | zero => omega
      | succ m =>
        rw [List.take_succ_cons, parenCloseAux, if_neg hcond]
        exact ih (parenStep lvl c) (i + 1) m h (by omega)

/-- C10: when the matched outer close parenthesis sits at index pc, every
character after it is ignored: the parse succeeds and produces the same
Signature as parsing the input truncated right after that close
parenthesis. -/
theorem parse_ignores_trailing (l : List Char) (po pc : Nat)
    (hpo : findOpen l = some po) (hpc : findClose l po = some pc) :
    (parseFunctionSignature l).isSome = true ∧
    parseFunctionSignature l = parseFunctionSignature (l.take (pc + 1)) := by
  have hpc' : parenCloseAux 0 po (l.drop po) = some pc := hpc
  have hople : po ≤ pc := parenCloseAux_ge _ _ _ _ hpc'
  have h1 : findOpen (l.take (pc + 1)) = some po :=
    findCharAux_take '(' 0 l po (pc + 1) hpo (by omega)
  have h2 : findClose (l.take (pc + 1)) po = some pc := by
    unfold findClose
    rw [List.drop_take]
    exact parenCloseAux_take 0 po (l.drop po) pc (pc + 1 - po) hpc' (by omega)
  have e1 : (l.take (pc + 1)).take po = l.take po := by
    rw [List.take_take]
    congr 1
    omega
  have e2 : ((l.take (pc + 1)).drop (po + 1)).take (pc - (po + 1)) =
      (l.drop (po + 1)).take (pc - (po + 1)) := by
    rw [List.drop_take, List.take_take]
    congr 1
    omega
  constructor
  · unfold parseFunctionSignature
    simp only [hpo, hpc]
    split <;> rfl
  · unfold parseFunctionSignature
    simp only [hpo, hpc, h1, h2, e1, e2]

/-- C10 witness: a concrete input with trailing garbage after the close
parenthesis parses successfully and identically to its truncation. -/
theorem parse_ignores_trailing_witness :
    (parseFunctionSignature ("int(char)garbage".data)).isSome = true ∧
    parseFunctionSignature ("int(char)garbage".data) =
      parseFunctionSignature (("int(char)garbage".data).take 9) :=
  parse_ignores_trailing ("int(char)garbage".data) 3 8 (by decide) (by decide)

end Coogle
